import Mathlib

/-!
Verification development for the y-postgresql update-log / compaction core.

The embedding models the single physical table `(id SERIAL PRIMARY KEY,
docname TEXT, value BYTEA, version ypga_version)` as a list of rows plus the
next value of the serial counter.  Delta rows carry `version = 'v1'`
(`isSv = false`), checkpoint (state-vector) rows carry `version = 'v1_sv'`
(`isSv = true`).  SQL queries are modelled by their semantics on that list:
`ORDER BY id` is an insertion sort by `id`, `LIMIT 1` is `head?`, `DELETE`
and `WHERE` are filters.  The lib0 varuint encoder/decoder used by
`writeStateVector` / `decodeStateVectorBuffer` is embedded byte for byte.
The yjs CRDT document (`Y.Doc`, `Y.applyUpdate`, `Y.encodeStateVector`,
`Y.encodeStateAsUpdate`) is an opaque external capability, modelled as a
structure of functions.

The repository contains two revisions of each module: a synchronous
`storeUpdate` / one-query `readAllUpdates` pair and a fire-and-forget
`storeUpdate` / keyset-paginated `readAllUpdates` pair.  Both are embedded
(`storeUpdate` vs `storeUpdateAsync`, `readAllUpdatesSingle...` vs
`readAllUpdatesKeyset...`, `getYDocFromDb` vs `getYDocFromDbStreaming`).
-/

/-- Opaque byte strings (Uint8Array / BYTEA payloads). -/
abbrev Bytes := List Nat

/-! lib0 `encoding.writeVarUint`: while num > 127 emit `0x80 | (num & 0x7f)`
and shift by 7 bits; finally emit the remaining byte.  Structurally recursive
on a fuel argument (the number itself bounds the iteration count) so that the
definition evaluates by kernel reduction. -/

def writeVarUintGo : Nat → Nat → Bytes
  | 0, num => [num]
  | fuel + 1, num =>
    if 127 < num then (128 + num % 128) :: writeVarUintGo fuel (num / 128)
    else [num]

def writeVarUint (num : Nat) : Bytes := writeVarUintGo num num

/-- lib0 `encoding.writeVarUint8Array`: length prefix as a varuint, then the
bytes themselves. -/
def writeVarUint8Array (b : Bytes) : Bytes := writeVarUint b.length ++ b

/-- The buffer `writeStateVector` builds with a lib0 encoder: varuint clock,
then varuint byte array for the state vector. -/
def encodeStateVectorBuffer (sv : Bytes) (clock : Nat) : Bytes :=
  writeVarUint clock ++ writeVarUint8Array sv

/-- lib0 `decoding.readVarUint`: accumulate 7-bit groups, little-endian, until
a byte below 0x80.  Returns the value and the remaining bytes; `none` models
running off the end of the buffer. -/
def readVarUintAux : Bytes → Nat → Nat → Option (Nat × Bytes)
  | [], _, _ => none
  | r :: rest, acc, mult =>
    if r < 128 then some (acc + r % 128 * mult, rest)
    else readVarUintAux rest (acc + r % 128 * mult) (mult * 128)

def readVarUint (bs : Bytes) : Option (Nat × Bytes) := readVarUintAux bs 0 1

/-- lib0 `decoding.readVarUint8Array`: varuint length, then that many bytes. -/
def readVarUint8Array (bs : Bytes) : Option (Bytes × Bytes) :=
  match readVarUint bs with
  | none => none
  | some (len, rest) =>
    if len ≤ rest.length then some (rest.take len, rest.drop len) else none

/-- `decodeStateVectorBuffer` (y-postgresql.ts): read the clock, then the
state vector, from a stored checkpoint buffer.  The source throws when it is
not handed a buffer; decode failure is modelled as `none`. -/
def decodeStateVectorBuffer (buffer : Bytes) : Option (Bytes × Nat) :=
  match readVarUint buffer with
  | none => none
  | some (clock, rest) =>
    match readVarUint8Array rest with
    | none => none
    | some (sv, _) => some (sv, clock)

/-- One row of the table created by `PgAdapter.connect`.  `isSv = false` is
`version = 'v1'` (a delta/update row), `isSv = true` is `version = 'v1_sv'`
(the checkpoint / state-vector row). -/
structure Row where
  id : Nat
  docname : String
  value : Bytes
  isSv : Bool
deriving DecidableEq

/-- The table state: the rows plus the next value of the SERIAL counter. -/
structure DB where
  nextId : Nat
  rows : List Row
deriving DecidableEq

/-- A freshly created table (SERIAL counters start at 1). -/
def DB.empty : DB := ⟨1, []⟩

/-- The live delta rows (`version = 'v1'`) of one document. -/
def deltaRowsL (rows : List Row) (doc : String) : List Row :=
  rows.filter fun r => r.docname = doc ∧ r.isSv = false

/-- The checkpoint (`version = 'v1_sv'`) rows of one document. -/
def svRowsL (rows : List Row) (doc : String) : List Row :=
  rows.filter fun r => r.docname = doc ∧ r.isSv = true

def rowLE (a b : Row) : Prop := a.id ≤ b.id

def rowGE (a b : Row) : Prop := b.id ≤ a.id

def rowLT (a b : Row) : Prop := a.id < b.id

instance : DecidableRel rowLE := fun a b => inferInstanceAs (Decidable (a.id ≤ b.id))

instance : DecidableRel rowGE := fun a b => inferInstanceAs (Decidable (b.id ≤ a.id))

instance : IsTotal Row rowLE := ⟨fun a b => Nat.le_total a.id b.id⟩

instance : IsTrans Row rowLE := ⟨fun _ _ _ h1 h2 => Nat.le_trans h1 h2⟩

instance : IsTotal Row rowGE := ⟨fun a b => Nat.le_total b.id a.id⟩

instance : IsTrans Row rowGE := ⟨fun _ _ _ h1 h2 => Nat.le_trans h2 h1⟩

/-- `SELECT ... WHERE docname = %L AND version = 'v1' ORDER BY id` for one
document: the live delta rows in ascending id order. -/
def selectUpdatesAsc (db : DB) (doc : String) : List Row :=
  List.insertionSort rowLE (deltaRowsL db.rows doc)

/-- The same rows in descending id order (`ORDER BY id DESC`). -/
def selectUpdatesDesc (db : DB) (doc : String) : List Row :=
  List.insertionSort rowGE (deltaRowsL db.rows doc)

/-- `PgAdapter.findLatestDocumentId`: `SELECT id ... WHERE docname = %L AND
version = 'v1' ORDER BY id DESC LIMIT 1`, with `-1` when no row matches. -/
def findLatestDocumentId (db : DB) (doc : String) : Int :=
  match (selectUpdatesDesc db doc).head? with
  | some r => (r.id : Int)
  | none => -1

/-- `PgAdapter.insertUpdate`: `INSERT INTO %I (docname, value, version)
VALUES (%L, %L, 'v1') RETURNING id` — appends one delta row with the next
serial id and returns that id. -/
def insertUpdate (db : DB) (doc : String) (value : Bytes) : DB × Nat :=
  (⟨db.nextId + 1, db.rows ++ [⟨db.nextId, doc, value, false⟩]⟩, db.nextId)

/-- `PgAdapter._getStateVector`: `SELECT id, value ... WHERE docname = %L AND
version = 'v1_sv' LIMIT 1`. -/
def getStateVectorRow (db : DB) (doc : String) : Option Row :=
  (svRowsL db.rows doc).head?

/-- `PgAdapter.getStateVectorBuffer`: the checkpoint row's stored buffer. -/
def getStateVectorBuffer (db : DB) (doc : String) : Option Bytes :=
  (getStateVectorRow db doc).map fun r => r.value

/-- The effect of `UPDATE %I SET value = %L WHERE id = %L` on one row. -/
def updateRowValue (v : Bytes) (i : Nat) (r : Row) : Row :=
  if r.id = i then { r with value := v } else r

/-- `PgAdapter.putStateVector`: select the checkpoint row; if present,
`UPDATE ... WHERE id = ...` in place, otherwise `INSERT` a fresh
`'v1_sv'` row (which consumes a serial id). -/
def putStateVector (db : DB) (doc : String) (value : Bytes) : DB :=
  match getStateVectorRow db doc with
  | some sv => ⟨db.nextId, db.rows.map (updateRowValue value sv.id)⟩
  | none => ⟨db.nextId + 1, db.rows ++ [⟨db.nextId, doc, value, true⟩]⟩

/-- `PgAdapter.clearUpdatesRange`: `DELETE ... WHERE docname = %L AND
version = 'v1' AND id >= %L AND id < %L`. -/
def clearUpdatesRange (db : DB) (doc : String) (lo hi : Int) : DB :=
  ⟨db.nextId,
   db.rows.filter fun r =>
     ¬(r.docname = doc ∧ r.isSv = false ∧ lo ≤ (r.id : Int) ∧ (r.id : Int) < hi)⟩

/-- `PgAdapter.deleteDocument`: delete every row of the document, returning
the deleted rows (`RETURNING *`). -/
def deleteDocument (db : DB) (doc : String) : DB × List Row :=
  (⟨db.nextId, db.rows.filter fun r => ¬(r.docname = doc)⟩,
   db.rows.filter fun r => r.docname = doc)

/-- `readAllUpdates` of src/pg-adapter.ts (single-query revision): one
`SELECT ... ORDER BY id` with no LIMIT, and one callback invocation carrying
every row.  The list of delivered batches is therefore a single page holding
the whole log. -/
def readAllUpdatesSinglePages (db : DB) (doc : String) : List (List Row) :=
  [selectUpdatesAsc db doc]

/-- The value the single-query `readAllUpdates` returns: `rows.length`. -/
def readAllUpdatesSingleCount (db : DB) (doc : String) : Nat :=
  (selectUpdatesAsc db doc).length

/-- The keyset-paginated `readAllUpdates` loop (pg-adapter revision with
`BATCH_SIZE = 1000`): repeatedly `SELECT ... WHERE ... AND id > lastId ORDER
BY id LIMIT 1000`, deliver the batch, set `lastId` to the batch's last id,
stop on an empty or short batch.  `fuel` bounds the iteration count (each
pass consumes rows, so `db.rows.length + 1` passes always suffice). -/
def readAllUpdatesKeysetGo (asc : List Row) : Int → Nat → List (List Row)
  | _, 0 => []
  | lastId, fuel + 1 =>
    let batch := (asc.filter fun r => lastId < (r.id : Int)).take 1000
    if h : batch = [] then []
    else if batch.length < 1000 then [batch]
    else batch :: readAllUpdatesKeysetGo asc ((batch.getLast h).id : Int) fuel

/-- The batches the keyset `readAllUpdates` delivers to its callback,
starting from `lastId = -1`. -/
def readAllUpdatesKeyset (db : DB) (doc : String) : List (List Row) :=
  readAllUpdatesKeysetGo (selectUpdatesAsc db doc) (-1) (db.rows.length + 1)

/-- The `totalCount` the keyset `readAllUpdates` returns: the sum of the
delivered batch sizes. -/
def readAllUpdatesKeysetCount (db : DB) (doc : String) : Nat :=
  ((readAllUpdatesKeyset db doc).map List.length).sum

/-- The external CRDT capability (yjs): create an empty document, apply an
update payload, encode the state vector, encode the full state as one
update.  The core never inspects the document type. -/
structure Crdt (D : Type) where
  newDoc : D
  applyUpdate : D → Bytes → D
  encodeStateVector : D → Bytes
  encodeStateAsUpdate : D → Bytes

/-- `writeStateVector` (y-postgresql.ts): encode `clock` then `sv` with a
lib0 encoder and upsert the buffer via `putStateVector`. -/
def writeStateVector (db : DB) (doc : String) (sv : Bytes) (clock : Nat) : DB :=
  putStateVector db doc (encodeStateVectorBuffer sv clock)

/-- `readStateVector` (y-postgresql.ts): `{sv: null, clock: -1}` when no
checkpoint buffer exists, otherwise the decoded buffer; a decode failure
(the source's thrown error) is `none`. -/
def readStateVector (db : DB) (doc : String) : Option (Option Bytes × Int) :=
  match getStateVectorBuffer db doc with
  | none => some (none, -1)
  | some buf =>
    match decodeStateVectorBuffer buf with
    | none => none
    | some (sv, clock) => some (some sv, (clock : Int))

/-- `getCurrentUpdateClock` delegates to `findLatestDocumentId`. -/
def getCurrentUpdateClock (db : DB) (doc : String) : Int :=
  findLatestDocumentId db doc

/-- `storeUpdate` (synchronous revision): query the current clock; on `-1`
(first write ever) apply the payload to a fresh `Y.Doc`, encode its state
vector and write it with clock 0; then insert the update row and return its
id. -/
def storeUpdate {D : Type} (C : Crdt D) (db : DB) (doc : String) (update : Bytes) :
    DB × Nat :=
  let clock := getCurrentUpdateClock db doc
  let db1 :=
    if clock = -1 then
      writeStateVector db doc (C.encodeStateVector (C.applyUpdate C.newDoc update)) 0
    else db
  insertUpdate db1 doc update

/-- The lazy checkpoint-initialization task `storeUpdate` (fire-and-forget
revision) dispatches: derive the initial state vector from the payload and
write it with clock 0.  `bgFails` selects whether the background write
fails; a failure leaves the table untouched. -/
def writeInitialStateVectorTask {D : Type} (C : Crdt D) (db : DB) (doc : String)
    (update : Bytes) (bgFails : Bool) : Except Unit DB :=
  if bgFails then Except.error ()
  else Except.ok
    (writeStateVector db doc (C.encodeStateVector (C.applyUpdate C.newDoc update)) 0)

/-- `storeUpdate` (fire-and-forget revision): the background initialization's
error is caught (`.catch(err => console.error(...))`) — logged locally and
never rethrown — so the foreground path always proceeds to `insertUpdate`
and returns its id.  The foreground itself returns no error either way. -/
def storeUpdateAsync {D : Type} (C : Crdt D) (db : DB) (doc : String)
    (update : Bytes) (bgFails : Bool) : Except Unit (DB × Nat) :=
  let clock := getCurrentUpdateClock db doc
  let db1 :=
    if clock = -1 then
      match writeInitialStateVectorTask C db doc update bgFails with
      | Except.ok db2 => db2
      | Except.error _ => db
    else db
  Except.ok (insertUpdate db1 doc update)

/-- `flushDocument`: append the full state as a new delta via `storeUpdate`
(its sequence is the new clock / high watermark), write the state vector at
that clock, then delete the deltas in `[0, clock)`; return the clock. -/
def flushDocument {D : Type} (C : Crdt D) (db : DB) (doc : String)
    (stateAsUpdate stateVector : Bytes) : DB × Nat :=
  let r := storeUpdate C db doc stateAsUpdate
  let db2 := writeStateVector r.1 doc stateVector r.2
  let db3 := clearUpdatesRange db2 doc 0 (r.2 : Int)
  (db3, r.2)

/-- `getYDocFromDb` (counting revision): read every update with the
single-query `readAllUpdates`, apply all of them to a fresh document in one
transaction, and flush when the returned row count exceeds `flushSize`. -/
def getYDocFromDb {D : Type} (C : Crdt D) (db : DB) (doc : String)
    (flushSize : Nat) : DB × D :=
  let pages := readAllUpdatesSinglePages db doc
  let updatesCount := readAllUpdatesSingleCount db doc
  let ydoc := pages.flatten.foldl (fun d r => C.applyUpdate d r.value) C.newDoc
  if flushSize < updatesCount then
    ((flushDocument C db doc (C.encodeStateAsUpdate ydoc) (C.encodeStateVector ydoc)).1,
     ydoc)
  else (db, ydoc)

/-- `getYDocFromDb` (streaming revision): apply each keyset batch inside a
transaction while counting batches; then estimate `totalUpdates = batchCount
* 1000` (the source's `BATCH_SIZE = 1000` comment) and flush asynchronously
when the estimate exceeds `flushSize`.  The fire-and-forget flush is applied
here (its errors are caught and logged in the source). -/
def getYDocFromDbStreaming {D : Type} (C : Crdt D) (db : DB) (doc : String)
    (flushSize : Nat) : DB × D :=
  let pages := readAllUpdatesKeyset db doc
  let ydoc := pages.flatten.foldl (fun d r => C.applyUpdate d r.value) C.newDoc
  let batchCount := pages.length
  let totalUpdates := batchCount * 1000
  if flushSize < totalUpdates then
    ((flushDocument C db doc (C.encodeStateAsUpdate ydoc) (C.encodeStateVector ydoc)).1,
     ydoc)
  else (db, ydoc)

/-- The state `storeUpdate` hands to `insertUpdate`: unchanged, or with the
lazily initialized checkpoint written first (first-ever write). -/
def initForStore {D : Type} (C : Crdt D) (db : DB) (doc : String) (update : Bytes) : DB :=
  if findLatestDocumentId db doc = -1 then
    writeStateVector db doc (C.encodeStateVector (C.applyUpdate C.newDoc update)) 0
  else db

/-- The last two steps of `flushDocument` after the full-state append ran on
`db1`: upsert the checkpoint at the appended sequence, then delete the
deltas in `[0, sequence)`. -/
def flushTail (db1 : DB) (doc : String) (stateVector u : Bytes) : DB :=
  clearUpdatesRange
    (writeStateVector (insertUpdate db1 doc u).1 doc stateVector (insertUpdate db1 doc u).2)
    doc 0 ((insertUpdate db1 doc u).2 : Int)

/-- The delete-free operations of the document log service on one document:
record an update, compact, or load (either revision of the loader, each of
which may trigger a compaction). -/
inductive Op where
  | store (update : Bytes)
  | flush (stateAsUpdate stateVector : Bytes)
  | load (flushSize : Nat)
  | loadStreaming (flushSize : Nat)

/-- One service operation applied to the table state. -/
def stepOp {D : Type} (C : Crdt D) (doc : String) (db : DB) : Op → DB
  | Op.store u => (storeUpdate C db doc u).1
  | Op.flush u sv => (flushDocument C db doc u sv).1
  | Op.load fs => (getYDocFromDb C db doc fs).1
  | Op.loadStreaming fs => (getYDocFromDbStreaming C db doc fs).1

/-- A sequential run of service operations on one document, from a fresh
table. -/
def runOps {D : Type} (C : Crdt D) (doc : String) (ops : List Op) : DB :=
  ops.foldl (stepOp C doc) DB.empty

/-- The high watermark currently stored for a document: the clock field of
the decoded checkpoint buffer. -/
def storedClock (db : DB) (doc : String) : Option Nat :=
  match getStateVectorBuffer db doc with
  | none => none
  | some buf => (decodeStateVectorBuffer buf).map fun p => p.2

/-- Ordering on optional watermarks: an absent watermark precedes anything;
a present one must not shrink. -/
def clockLE : Option Nat → Option Nat → Prop
  | none, _ => True
  | some _, none => False
  | some a, some b => a ≤ b

/-- Every row id is below the serial counter — true of every table reachable
from `DB.empty`, and exactly what SERIAL guarantees. -/
def IdsBelow (db : DB) : Prop := ∀ r ∈ db.rows, r.id < db.nextId

instance (db : DB) : Decidable (IdsBelow db) :=
  inferInstanceAs (Decidable (∀ r ∈ db.rows, r.id < db.nextId))

/-- The reachable-state invariant behind watermark monotonicity: row ids are
below the serial counter, the counter is positive, and a stored watermark is
below the counter and — when positive — witnessed by a surviving delta (the
full-state delta compaction leaves behind), so the lazy initialization can
never reset it. -/
def WatermarkInv (doc : String) (db : DB) : Prop :=
  IdsBelow db ∧ 0 < db.nextId ∧
  ∀ w, storedClock db doc = some w →
    w < db.nextId ∧ (0 < w → deltaRowsL db.rows doc ≠ [])

/-- At most one checkpoint row per document. -/
def AtMostOneSv (db : DB) (doc : String) : Prop := (svRowsL db.rows doc).length ≤ 1

/-- A concrete document name for witnesses. -/
def dName : String := "d"

/-- A trivial concrete instance of the CRDT capability, for witnesses. -/
def unitCrdt : Crdt Unit :=
  ⟨(), fun _ _ => (), fun _ => [], fun _ => []⟩

/-- A table holding `n` delta rows for `dName`, appended in order. -/
def mkDb : Nat → DB
  | 0 => DB.empty
  | n + 1 => (insertUpdate (mkDb n) dName []).1

/-! Varuint round-trip: the lib0 decoder inverts the lib0 encoder. -/

theorem writeVarUintGo_congr :
    ∀ f1 f2 n : Nat, n ≤ f1 → n ≤ f2 → writeVarUintGo f1 n = writeVarUintGo f2 n := by
  intro f1
  induction f1 with
  | zero =>
    intro f2 n h1 _
    have hn : n = 0 := by omega
    subst hn
    cases f2 with
    | zero => rfl
    | succ h => simp [writeVarUintGo]
  | succ g ih =>
    intro f2 n h1 h2
    cases f2 with
    | zero =>
      have hn : n = 0 := by omega
      subst hn
      simp [writeVarUintGo]
    | succ h =>
      rw [writeVarUintGo, writeVarUintGo]
      by_cases hn : 127 < n
      · simp only [hn, if_true]
        have hd : n / 128 < n := Nat.div_lt_self (by omega) (by omega)
        rw [ih h (n / 128) (by omega) (by omega)]
      · simp only [hn, if_false]

theorem writeVarUint_eq (n : Nat) :
    writeVarUint n = if 127 < n then (128 + n % 128) :: writeVarUint (n / 128) else [n] := by
  unfold writeVarUint
  cases n with
  | zero => simp [writeVarUintGo]
  | succ m =>
    rw [writeVarUintGo]
    by_cases h : 127 < m + 1
    · simp only [h, if_true]
      congr 1
      have hd : (m + 1) / 128 < m + 1 := Nat.div_lt_self (by omega) (by omega)
      exact writeVarUintGo_congr m ((m + 1) / 128) ((m + 1) / 128) (by omega) (by omega)
    · simp only [h, if_false]

theorem readVarUintAux_append (n : Nat) :
    ∀ rest acc mult, readVarUintAux (writeVarUint n ++ rest) acc mult
      = some (acc + n * mult, rest) := by
  induction n using Nat.strong_induction_on with
  | _ n ih =>
    intro rest acc mult
    rw [writeVarUint_eq]
    by_cases h : 127 < n
    · simp only [h, if_true, List.cons_append]
      rw [readVarUintAux]
      have h1 : ¬(128 + n % 128 < 128) := by omega
      simp only [h1, if_false]
      rw [ih (n / 128) (Nat.div_lt_self (by omega) (by omega))]
      have h2 : (128 + n % 128) % 128 = n % 128 := by omega
      have h3 : n % 128 + n / 128 * 128 = n := Nat.mod_add_div' n 128
      rw [h2]
      have h4 : acc + n % 128 * mult + n / 128 * (mult * 128) = acc + n * mult := by
        conv_rhs => rw [← h3]
        ring
      rw [h4]
    · simp only [h, if_false, List.cons_append]
      rw [readVarUintAux]
      have h1 : n < 128 := by omega
      simp only [h1, if_true]
      rw [Nat.mod_eq_of_lt h1]
      simp

theorem readVarUint_append (n : Nat) (rest : Bytes) :
    readVarUint (writeVarUint n ++ rest) = some (n, rest) := by
  unfold readVarUint
  rw [readVarUintAux_append]
  simp

theorem readVarUint8Array_append (b rest : Bytes) :
    readVarUint8Array (writeVarUint8Array b ++ rest) = some (b, rest) := by
  unfold readVarUint8Array writeVarUint8Array
  rw [List.append_assoc, readVarUint_append]
  have hle : b.length ≤ (b ++ rest).length := by
    rw [List.length_append]; omega
  simp only [hle, if_true, List.take_left, List.drop_left]

theorem decode_encode (sv : Bytes) (clock : Nat) :
    decodeStateVectorBuffer (encodeStateVectorBuffer sv clock) = some (sv, clock) := by
  unfold decodeStateVectorBuffer encodeStateVectorBuffer
  rw [readVarUint_append]
  dsimp only
  have h := readVarUint8Array_append sv []
  rw [List.append_nil] at h
  rw [h]

/-! Row-level effects of the adapter operations on the two row kinds. -/

theorem updateRowValue_id (v : Bytes) (i : Nat) (r : Row) :
    (updateRowValue v i r).id = r.id := by
  unfold updateRowValue; split <;> rfl

theorem updateRowValue_docname (v : Bytes) (i : Nat) (r : Row) :
    (updateRowValue v i r).docname = r.docname := by
  unfold updateRowValue; split <;> rfl

theorem updateRowValue_isSv (v : Bytes) (i : Nat) (r : Row) :
    (updateRowValue v i r).isSv = r.isSv := by
  unfold updateRowValue; split <;> rfl

theorem svRowsL_map_update (rows : List Row) (doc : String) (v : Bytes) (i : Nat) :
    svRowsL (rows.map (updateRowValue v i)) doc
      = (svRowsL rows doc).map (updateRowValue v i) := by
  unfold svRowsL
  rw [List.filter_map]
  congr 1
  apply List.filter_congr
  intro r _
  simp [updateRowValue_docname, updateRowValue_isSv]

theorem deltaRowsL_map_update (rows : List Row) (doc : String) (v : Bytes) (i : Nat) :
    deltaRowsL (rows.map (updateRowValue v i)) doc
      = (deltaRowsL rows doc).map (updateRowValue v i) := by
  unfold deltaRowsL
  rw [List.filter_map]
  congr 1
  apply List.filter_congr
  intro r _
  simp [updateRowValue_docname, updateRowValue_isSv]

theorem svRowsL_append (rows : List Row) (r : Row) (doc : String) :
    svRowsL (rows ++ [r]) doc
      = svRowsL rows doc ++ if r.docname = doc ∧ r.isSv = true then [r] else [] := by
  unfold svRowsL
  rw [List.filter_append]
  congr 1
  by_cases h : r.docname = doc ∧ r.isSv = true <;> simp [h]

theorem deltaRowsL_append (rows : List Row) (r : Row) (doc : String) :
    deltaRowsL (rows ++ [r]) doc
      = deltaRowsL rows doc ++ if r.docname = doc ∧ r.isSv = false then [r] else [] := by
  unfold deltaRowsL
  rw [List.filter_append]
  congr 1
  by_cases h : r.docname = doc ∧ r.isSv = false <;> simp [h]

theorem svRowsL_clear (rows : List Row) (doc d : String) (lo hi : Int) :
    svRowsL (rows.filter fun r =>
        ¬(r.docname = doc ∧ r.isSv = false ∧ lo ≤ (r.id : Int) ∧ (r.id : Int) < hi)) d
      = svRowsL rows d := by
  unfold svRowsL
  rw [List.filter_filter]
  apply List.filter_congr
  intro a _
  by_cases h1 : a.docname = d ∧ a.isSv = true
  · have hsv : a.isSv = true := h1.2
    simp [h1, hsv]
  · simp [h1]

theorem deltaRowsL_clear (rows : List Row) (doc : String) (lo hi : Int) :
    deltaRowsL (rows.filter fun r =>
        ¬(r.docname = doc ∧ r.isSv = false ∧ lo ≤ (r.id : Int) ∧ (r.id : Int) < hi)) doc
      = (deltaRowsL rows doc).filter fun r => ¬(lo ≤ (r.id : Int) ∧ (r.id : Int) < hi) := by
  unfold deltaRowsL
  rw [List.filter_filter, List.filter_filter]
  apply List.filter_congr
  intro a _
  by_cases h1 : a.docname = doc ∧ a.isSv = false
  · simp [h1.1, h1.2]
  · simp [h1]

theorem getStateVectorBuffer_insertUpdate (db : DB) (doc d : String) (v : Bytes) :
    getStateVectorBuffer (insertUpdate db d v).1 doc = getStateVectorBuffer db doc := by
  unfold getStateVectorBuffer getStateVectorRow insertUpdate
  simp only []
  rw [svRowsL_append]
  simp

theorem getStateVectorBuffer_clear (db : DB) (doc d : String) (lo hi : Int) :
    getStateVectorBuffer (clearUpdatesRange db d lo hi) doc = getStateVectorBuffer db doc := by
  unfold getStateVectorBuffer getStateVectorRow clearUpdatesRange
  simp only []
  rw [svRowsL_clear]

theorem getStateVectorBuffer_put (db : DB) (doc : String) (v : Bytes) :
    getStateVectorBuffer (putStateVector db doc v) doc = some v := by
  cases h : getStateVectorRow db doc with
  | none =>
    have hnil : svRowsL db.rows doc = [] := by
      unfold getStateVectorRow at h
      exact List.head?_eq_none_iff.mp h
    unfold getStateVectorBuffer getStateVectorRow putStateVector
    rw [h]
    simp [svRowsL_append, hnil]
  | some sv =>
    unfold getStateVectorBuffer getStateVectorRow putStateVector
    rw [h]
    simp only [svRowsL_map_update, List.head?_map]
    unfold getStateVectorRow at h
    rw [h]
    simp [updateRowValue]

theorem storedClock_write (db : DB) (doc : String) (sv : Bytes) (clock : Nat) :
    storedClock (writeStateVector db doc sv clock) doc = some clock := by
  unfold storedClock writeStateVector
  rw [getStateVectorBuffer_put]
  dsimp only
  rw [decode_encode]
  rfl

theorem readStateVector_write (db : DB) (doc : String) (sv : Bytes) (clock : Nat) :
    readStateVector (writeStateVector db doc sv clock) doc = some (some sv, (clock : Int)) := by
  unfold readStateVector writeStateVector
  rw [getStateVectorBuffer_put]
  dsimp only
  rw [decode_encode]

/-- C10: decoding the checkpoint payload produced by the encoder (varuint
clock followed by varuint byte-array state vector, as `writeStateVector`
builds it) returns exactly the stored pair, for every state vector and every
non-negative clock; in particular `readStateVector` after `writeStateVector`
recovers the stored state vector and clock unchanged. -/
theorem stateVector_encode_decode_roundtrip (db : DB) (doc : String) (sv : Bytes)
    (clock : Nat) :
    decodeStateVectorBuffer (encodeStateVectorBuffer sv clock) = some (sv, clock) ∧
    readStateVector (writeStateVector db doc sv clock) doc = some (some sv, (clock : Int)) :=
  ⟨decode_encode sv clock, readStateVector_write db doc sv clock⟩

/-! Characterization of `findLatestDocumentId` (ORDER BY id DESC LIMIT 1). -/

theorem findLatestDocumentId_neg_iff (db : DB) (doc : String) :
    findLatestDocumentId db doc = -1 ↔ deltaRowsL db.rows doc = [] := by
  unfold findLatestDocumentId
  cases h : (selectUpdatesDesc db doc).head? with
  | some r =>
    simp only []
    constructor
    · intro hc
      exfalso
      have : (0 : Int) ≤ (r.id : Int) := Int.natCast_nonneg r.id
      omega
    · intro hnil
      exfalso
      have hd : selectUpdatesDesc db doc = [] := by
        unfold selectUpdatesDesc
        rw [hnil]
        rfl
      rw [hd] at h
      exact absurd h (by simp)
  | none =>
    have hdesc : selectUpdatesDesc db doc = [] := List.head?_eq_none_iff.mp h
    have hperm : (selectUpdatesDesc db doc).Perm (deltaRowsL db.rows doc) :=
      List.perm_insertionSort rowGE (deltaRowsL db.rows doc)
    constructor
    · intro _
      have hl := hperm.length_eq
      rw [hdesc] at hl
      exact List.length_eq_zero.mp hl.symm
    · intro _
      rfl

theorem findLatestDocumentId_eq_of_head (db : DB) (doc : String) (r : Row)
    (h : (selectUpdatesDesc db doc).head? = some r) :
    findLatestDocumentId db doc = (r.id : Int) := by
  unfold findLatestDocumentId
  rw [h]

theorem selectUpdatesDesc_head_max (db : DB) (doc : String) (r : Row)
    (h : (selectUpdatesDesc db doc).head? = some r) :
    r ∈ deltaRowsL db.rows doc ∧ ∀ a ∈ deltaRowsL db.rows doc, a.id ≤ r.id := by
  have hperm : (selectUpdatesDesc db doc).Perm (deltaRowsL db.rows doc) :=
    List.perm_insertionSort rowGE (deltaRowsL db.rows doc)
  have hsort : (selectUpdatesDesc db doc).Sorted rowGE :=
    List.sorted_insertionSort rowGE (deltaRowsL db.rows doc)
  cases hl : selectUpdatesDesc db doc with
  | nil =>
    rw [hl] at h
    exact absurd h (by simp)
  | cons x t =>
    rw [hl] at h
    have hrx : r = x := by
      simp only [List.head?] at h
      exact (Option.some.inj h).symm
    subst hrx
    rw [hl] at hperm hsort
    constructor
    · exact hperm.subset (List.mem_cons_self r t)
    · intro a ha
      have hmem : a ∈ r :: t := hperm.mem_iff.mpr ha
      rcases List.mem_cons.mp hmem with hax | hat
      · rw [hax]
      · exact (List.pairwise_cons.mp hsort).1 a hat

/-- C8: `findLatestDocumentId` returns the highest sequence among the
document's live delta rows (rows with `version = 'v1'` only — checkpoint
rows are filtered out by the query), and `-1` when the document has no live
delta rows. -/
theorem findLatestDocumentId_spec (db : DB) (doc : String) :
    (findLatestDocumentId db doc = -1 ↔ deltaRowsL db.rows doc = []) ∧
    (∀ a ∈ deltaRowsL db.rows doc, (a.id : Int) ≤ findLatestDocumentId db doc) ∧
    (deltaRowsL db.rows doc ≠ [] →
      ∃ r ∈ deltaRowsL db.rows doc, (r.id : Int) = findLatestDocumentId db doc) := by
  refine ⟨findLatestDocumentId_neg_iff db doc, ?_, ?_⟩
  · intro a ha
    cases h : (selectUpdatesDesc db doc).head? with
    | none =>
      exfalso
      have hdesc : selectUpdatesDesc db doc = [] := List.head?_eq_none_iff.mp h
      have hperm : (selectUpdatesDesc db doc).Perm (deltaRowsL db.rows doc) :=
        List.perm_insertionSort rowGE (deltaRowsL db.rows doc)
      have hl := hperm.length_eq
      rw [hdesc] at hl
      rw [List.length_eq_zero.mp hl.symm] at ha
      exact absurd ha (by simp)
    | some r =>
      rw [findLatestDocumentId_eq_of_head db doc r h]
      exact_mod_cast (selectUpdatesDesc_head_max db doc r h).2 a ha
  · intro hne
    cases h : (selectUpdatesDesc db doc).head? with
    | none =>
      exfalso
      have hdesc : selectUpdatesDesc db doc = [] := List.head?_eq_none_iff.mp h
      have hperm : (selectUpdatesDesc db doc).Perm (deltaRowsL db.rows doc) :=
        List.perm_insertionSort rowGE (deltaRowsL db.rows doc)
      have hl := hperm.length_eq
      rw [hdesc] at hl
      exact hne (List.length_eq_zero.mp hl.symm)
    | some r =>
      exact ⟨r, (selectUpdatesDesc_head_max db doc r h).1,
        (findLatestDocumentId_eq_of_head db doc r h).symm⟩

/-! Small facts about `insertUpdate`, ids and the serial counter. -/

theorem insertUpdate_rows (db : DB) (doc : String) (v : Bytes) :
    (insertUpdate db doc v).1.rows = db.rows ++ [⟨db.nextId, doc, v, false⟩] := rfl

theorem insertUpdate_id (db : DB) (doc : String) (v : Bytes) :
    (insertUpdate db doc v).2 = db.nextId := rfl

theorem insertUpdate_nextId (db : DB) (doc : String) (v : Bytes) :
    (insertUpdate db doc v).1.nextId = db.nextId + 1 := rfl

theorem putStateVector_nextId_ge (db : DB) (doc : String) (v : Bytes) :
    db.nextId ≤ (putStateVector db doc v).nextId := by
  unfold putStateVector
  cases h : getStateVectorRow db doc <;> simp

theorem IdsBelow_putStateVector (db : DB) (doc : String) (v : Bytes)
    (hid : IdsBelow db) : IdsBelow (putStateVector db doc v) := by
  unfold putStateVector
  cases h : getStateVectorRow db doc with
  | some sv =>
    intro r hr
    simp only [List.mem_map] at hr
    obtain ⟨a, ha, rfl⟩ := hr
    rw [updateRowValue_id]
    exact hid a ha
  | none =>
    intro r hr
    simp only [] at hr
    rcases List.mem_append.mp hr with h1 | h2
    · have := hid r h1
      simp only []
      omega
    · have : r = ⟨db.nextId, doc, v, true⟩ := List.mem_singleton.mp h2
      rw [this]
      simp

theorem IdsBelow_insertUpdate (db : DB) (doc : String) (v : Bytes)
    (hid : IdsBelow db) : IdsBelow (insertUpdate db doc v).1 := by
  intro r hr
  rw [insertUpdate_rows] at hr
  rw [insertUpdate_nextId]
  rcases List.mem_append.mp hr with h1 | h2
  · have := hid r h1
    omega
  · have : r = ⟨db.nextId, doc, v, false⟩ := List.mem_singleton.mp h2
    rw [this]
    simp

theorem IdsBelow_clearUpdatesRange (db : DB) (doc : String) (lo hi : Int)
    (hid : IdsBelow db) : IdsBelow (clearUpdatesRange db doc lo hi) := by
  intro r hr
  exact hid r (List.mem_of_mem_filter hr)

theorem writeStateVector_nextId_ge (db : DB) (doc : String) (sv : Bytes) (clock : Nat) :
    db.nextId ≤ (writeStateVector db doc sv clock).nextId :=
  putStateVector_nextId_ge db doc (encodeStateVectorBuffer sv clock)

theorem readStateVector_insertUpdate (db : DB) (doc d : String) (v : Bytes) :
    readStateVector (insertUpdate db d v).1 doc = readStateVector db doc := by
  unfold readStateVector
  rw [getStateVectorBuffer_insertUpdate]

/-- C5: on a first-ever write (`findLatestDocumentId = -1`), `storeUpdate`
derives the initial checkpoint by applying the payload alone to a freshly
created empty document, stores its state-vector summary with high watermark
0, and — in every case — appends the delta row and returns the sequence the
store assigned to it (which is fresh). -/
theorem storeUpdate_first_write {D : Type} (C : Crdt D) (db : DB) (doc : String)
    (u : Bytes) :
    (findLatestDocumentId db doc = -1 →
      readStateVector (storeUpdate C db doc u).1 doc
        = some (some (C.encodeStateVector (C.applyUpdate C.newDoc u)), (0 : Int))) ∧
    (storeUpdate C db doc u).1.rows
      = (if findLatestDocumentId db doc = -1 then
            writeStateVector db doc (C.encodeStateVector (C.applyUpdate C.newDoc u)) 0
          else db).rows
        ++ [⟨(storeUpdate C db doc u).2, doc, u, false⟩] ∧
    (IdsBelow db → ∀ r ∈ db.rows, r.id < (storeUpdate C db doc u).2) := by
  have hunfold : storeUpdate C db doc u
      = insertUpdate
          (if findLatestDocumentId db doc = -1 then
            writeStateVector db doc (C.encodeStateVector (C.applyUpdate C.newDoc u)) 0
          else db) doc u := rfl
  refine ⟨?_, ?_, ?_⟩
  · intro h
    rw [hunfold, if_pos h, readStateVector_insertUpdate]
    have := readStateVector_write db doc (C.encodeStateVector (C.applyUpdate C.newDoc u)) 0
    simpa using this
  · rw [hunfold]
    by_cases h : findLatestDocumentId db doc = -1
    · rw [if_pos h, insertUpdate_rows, insertUpdate_id]
    · rw [if_neg h, insertUpdate_rows, insertUpdate_id]
  · intro hid r hr
    rw [hunfold]
    by_cases h : findLatestDocumentId db doc = -1
    · rw [if_pos h, insertUpdate_id]
      have h1 := hid r hr
      have h2 := writeStateVector_nextId_ge db doc
        (C.encodeStateVector (C.applyUpdate C.newDoc u)) 0
      omega
    · rw [if_neg h, insertUpdate_id]
      exact hid r hr

/-- C9: when the lazy checkpoint initialization is dispatched fire-and-forget
by `storeUpdate` (streaming revision), a failure of that background write is
caught and logged and never surfaces: the foreground call returns `ok` with
the appended delta's sequence whether the background write succeeds or
fails. -/
theorem storeUpdate_background_error_isolated {D : Type} (C : Crdt D) (db : DB)
    (doc : String) (u : Bytes) (bgFails : Bool) :
    (∃ p, storeUpdateAsync C db doc u bgFails = Except.ok p) ∧
    (∃ db1, storeUpdateAsync C db doc u bgFails = Except.ok (insertUpdate db1 doc u) ∧
      (⟨(insertUpdate db1 doc u).2, doc, u, false⟩ : Row) ∈ (insertUpdate db1 doc u).1.rows) := by
  have hmem : ∀ db1 : DB, (⟨(insertUpdate db1 doc u).2, doc, u, false⟩ : Row)
      ∈ (insertUpdate db1 doc u).1.rows := by
    intro db1
    rw [insertUpdate_rows, insertUpdate_id]
    exact List.mem_append_right _ (List.mem_singleton.mpr rfl)
  cases bgFails with
  | false =>
    have hunfold : storeUpdateAsync C db doc u false
        = Except.ok (insertUpdate
            (if findLatestDocumentId db doc = -1 then
              writeStateVector db doc (C.encodeStateVector (C.applyUpdate C.newDoc u)) 0
            else db) doc u) := rfl
    rw [hunfold]
    exact ⟨⟨_, rfl⟩, ⟨_, rfl, hmem _⟩⟩
  | true =>
    have hunfold : storeUpdateAsync C db doc u true
        = Except.ok (insertUpdate
            (if findLatestDocumentId db doc = -1 then db else db) doc u) := rfl
    rw [hunfold, ite_self]
    exact ⟨⟨_, rfl⟩, ⟨db, rfl, hmem db⟩⟩

/-! At most one checkpoint row per document is preserved by every
operation. -/

theorem svRowsL_sublist_le {rows1 rows2 : List Row} (h : rows1.Sublist rows2)
    (d : String) : (svRowsL rows1 d).length ≤ (svRowsL rows2 d).length := by
  unfold svRowsL
  exact (h.filter _).length_le

theorem AtMostOneSv_putStateVector (db : DB) (doc d : String) (v : Bytes)
    (h : AtMostOneSv db d) : AtMostOneSv (putStateVector db doc v) d := by
  unfold AtMostOneSv at *
  unfold putStateVector
  cases hsv : getStateVectorRow db doc with
  | some sv =>
    simp only []
    rw [svRowsL_map_update, List.length_map]
    exact h
  | none =>
    simp only []
    rw [svRowsL_append]
    by_cases hd : (⟨db.nextId, doc, v, true⟩ : Row).docname = d ∧
        ((⟨db.nextId, doc, v, true⟩ : Row).isSv = true)
    · rw [if_pos hd]
      have hdoc : doc = d := hd.1
      subst hdoc
      have hnil : svRowsL db.rows doc = [] := by
        unfold getStateVectorRow at hsv
        exact List.head?_eq_none_iff.mp hsv
      rw [hnil]
      simp
    · rw [if_neg hd]
      simpa using h

theorem AtMostOneSv_insertUpdate (db : DB) (doc d : String) (v : Bytes)
    (h : AtMostOneSv db d) : AtMostOneSv (insertUpdate db doc v).1 d := by
  unfold AtMostOneSv at *
  rw [insertUpdate_rows, svRowsL_append]
  rw [if_neg (by simp)]
  simpa using h

theorem AtMostOneSv_clearUpdatesRange (db : DB) (doc d : String) (lo hi : Int)
    (h : AtMostOneSv db d) : AtMostOneSv (clearUpdatesRange db doc lo hi) d := by
  unfold AtMostOneSv at *
  unfold clearUpdatesRange
  simp only []
  rw [svRowsL_clear]
  exact h

theorem AtMostOneSv_deleteDocument (db : DB) (doc d : String)
    (h : AtMostOneSv db d) : AtMostOneSv (deleteDocument db doc).1 d := by
  unfold AtMostOneSv at *
  exact Nat.le_trans (svRowsL_sublist_le (List.filter_sublist db.rows) d) h

theorem AtMostOneSv_writeStateVector (db : DB) (doc d : String) (sv : Bytes)
    (clock : Nat) (h : AtMostOneSv db d) :
    AtMostOneSv (writeStateVector db doc sv clock) d :=
  AtMostOneSv_putStateVector db doc d (encodeStateVectorBuffer sv clock) h

theorem AtMostOneSv_storeUpdate {D : Type} (C : Crdt D) (db : DB) (doc d : String)
    (u : Bytes) (h : AtMostOneSv db d) : AtMostOneSv (storeUpdate C db doc u).1 d := by
  have hunfold : (storeUpdate C db doc u).1
      = (insertUpdate
          (if findLatestDocumentId db doc = -1 then
            writeStateVector db doc (C.encodeStateVector (C.applyUpdate C.newDoc u)) 0
          else db) doc u).1 := rfl
  rw [hunfold]
  apply AtMostOneSv_insertUpdate
  by_cases hc : findLatestDocumentId db doc = -1
  · rw [if_pos hc]
    exact AtMostOneSv_writeStateVector db doc d _ 0 h
  · rw [if_neg hc]
    exact h

theorem AtMostOneSv_flushDocument {D : Type} (C : Crdt D) (db : DB) (doc d : String)
    (u sv : Bytes) (h : AtMostOneSv db d) :
    AtMostOneSv (flushDocument C db doc u sv).1 d := by
  have hunfold : (flushDocument C db doc u sv).1
      = clearUpdatesRange
          (writeStateVector (storeUpdate C db doc u).1 doc sv (storeUpdate C db doc u).2)
          doc 0 ((storeUpdate C db doc u).2 : Int) := rfl
  rw [hunfold]
  exact AtMostOneSv_clearUpdatesRange _ doc d 0 _
    (AtMostOneSv_writeStateVector _ doc d sv _ (AtMostOneSv_storeUpdate C db doc d u h))

theorem AtMostOneSv_stepOp {D : Type} (C : Crdt D) (doc d : String) (db : DB)
    (op : Op) (h : AtMostOneSv db d) : AtMostOneSv (stepOp C doc db op) d := by
  cases op with
  | store u => exact AtMostOneSv_storeUpdate C db doc d u h
  | flush u sv => exact AtMostOneSv_flushDocument C db doc d u sv h
  | load fs =>
    unfold stepOp getYDocFromDb
    dsimp only
    split
    · exact AtMostOneSv_flushDocument C db doc d _ _ h
    · exact h
  | loadStreaming fs =>
    unfold stepOp getYDocFromDbStreaming
    dsimp only
    split
    · exact AtMostOneSv_flushDocument C db doc d _ _ h
    · exact h

/-- C7: `putStateVector` has upsert semantics — a present checkpoint row is
updated in place (same row count, same row ids), an absent one is inserted —
and, absent races, every adapter and service operation preserves the
invariant that at most one checkpoint row exists per document. -/
theorem putStateVector_upsert {D : Type} (C : Crdt D) (db : DB) (doc d : String)
    (v : Bytes) (sv : Row) (lo hi : Int) :
    (getStateVectorRow db doc = some sv →
      putStateVector db doc v = ⟨db.nextId, db.rows.map (updateRowValue v sv.id)⟩ ∧
      (putStateVector db doc v).rows.length = db.rows.length ∧
      (putStateVector db doc v).rows.map (fun r => r.id) = db.rows.map (fun r => r.id) ∧
      getStateVectorBuffer (putStateVector db doc v) doc = some v) ∧
    (getStateVectorRow db doc = none →
      putStateVector db doc v = ⟨db.nextId + 1, db.rows ++ [⟨db.nextId, doc, v, true⟩]⟩ ∧
      getStateVectorBuffer (putStateVector db doc v) doc = some v) ∧
    (AtMostOneSv db d → AtMostOneSv (putStateVector db doc v) d) ∧
    (AtMostOneSv db d → AtMostOneSv (insertUpdate db doc v).1 d) ∧
    (AtMostOneSv db d → AtMostOneSv (clearUpdatesRange db doc lo hi) d) ∧
    (AtMostOneSv db d → AtMostOneSv (deleteDocument db doc).1 d) ∧
    (∀ op : Op, AtMostOneSv db d → AtMostOneSv (stepOp C doc db op) d) := by
  refine ⟨?_, ?_, AtMostOneSv_putStateVector db doc d v,
    AtMostOneSv_insertUpdate db doc d v, AtMostOneSv_clearUpdatesRange db doc d lo hi,
    AtMostOneSv_deleteDocument db doc d, fun op => AtMostOneSv_stepOp C doc d db op⟩
  · intro hsv
    have heq : putStateVector db doc v
        = ⟨db.nextId, db.rows.map (updateRowValue v sv.id)⟩ := by
      unfold putStateVector
      rw [hsv]
    refine ⟨heq, ?_, ?_, getStateVectorBuffer_put db doc v⟩
    · rw [heq]
      exact List.length_map db.rows (updateRowValue v sv.id)
    · rw [heq]
      simp only [List.map_map]
      apply List.map_congr_left
      intro a _
      exact updateRowValue_id v sv.id a
  · intro hsv
    have heq : putStateVector db doc v
        = ⟨db.nextId + 1, db.rows ++ [⟨db.nextId, doc, v, true⟩]⟩ := by
      unfold putStateVector
      rw [hsv]
    exact ⟨heq, getStateVectorBuffer_put db doc v⟩

/-! Facts about the compaction pipeline `flushDocument`. -/

theorem mem_svRowsL {rows : List Row} {doc : String} {r : Row}
    (h : r ∈ svRowsL rows doc) : r ∈ rows ∧ r.docname = doc ∧ r.isSv = true := by
  unfold svRowsL at h
  rw [List.mem_filter] at h
  refine ⟨h.1, ?_⟩
  have := h.2
  simpa using this

theorem mem_deltaRowsL {rows : List Row} {doc : String} {r : Row}
    (h : r ∈ deltaRowsL rows doc) : r ∈ rows ∧ r.docname = doc ∧ r.isSv = false := by
  unfold deltaRowsL at h
  rw [List.mem_filter] at h
  refine ⟨h.1, ?_⟩
  have := h.2
  simpa using this

theorem getStateVectorRow_mem {db : DB} {doc : String} {r : Row}
    (h : getStateVectorRow db doc = some r) :
    r ∈ db.rows ∧ r.docname = doc ∧ r.isSv = true := by
  unfold getStateVectorRow at h
  apply mem_svRowsL
  cases hl : svRowsL db.rows doc with
  | nil =>
    rw [hl] at h
    exact absurd h (by simp)
  | cons x t =>
    rw [hl] at h
    simp only [List.head?] at h
    rw [← Option.some.inj h]
    exact List.mem_cons_self x t

theorem readStateVector_of_buffer {db : DB} {doc : String} {sv : Bytes} {clock : Nat}
    (h : getStateVectorBuffer db doc = some (encodeStateVectorBuffer sv clock)) :
    readStateVector db doc = some (some sv, (clock : Int)) ∧
    storedClock db doc = some clock := by
  constructor
  · unfold readStateVector
    rw [h]
    dsimp only
    rw [decode_encode]
  · unfold storedClock
    rw [h]
    dsimp only
    rw [decode_encode]
    rfl

theorem storeUpdate_decomp {D : Type} (C : Crdt D) (db : DB) (doc : String) (u : Bytes) :
    storeUpdate C db doc u = insertUpdate (initForStore C db doc u) doc u := rfl

theorem initForStore_nextId_ge {D : Type} (C : Crdt D) (db : DB) (doc : String)
    (u : Bytes) : db.nextId ≤ (initForStore C db doc u).nextId := by
  unfold initForStore
  by_cases h : findLatestDocumentId db doc = -1
  · rw [if_pos h]
    exact writeStateVector_nextId_ge db doc _ 0
  · rw [if_neg h]

theorem IdsBelow_initForStore {D : Type} (C : Crdt D) (db : DB) (doc : String)
    (u : Bytes) (hid : IdsBelow db) : IdsBelow (initForStore C db doc u) := by
  unfold initForStore
  by_cases h : findLatestDocumentId db doc = -1
  · rw [if_pos h]
    exact IdsBelow_putStateVector db doc _ hid
  · rw [if_neg h]
    exact hid

theorem flushTail_facts (db1 : DB) (doc : String) (u sv : Bytes)
    (hid1 : IdsBelow db1) :
    deltaRowsL (flushTail db1 doc sv u).rows doc = [⟨db1.nextId, doc, u, false⟩] ∧
    getStateVectorBuffer (flushTail db1 doc sv u) doc
      = some (encodeStateVectorBuffer sv db1.nextId) ∧
    db1.nextId < (flushTail db1 doc sv u).nextId ∧
    IdsBelow (flushTail db1 doc sv u) := by
  have hid2 : IdsBelow (insertUpdate db1 doc u).1 := IdsBelow_insertUpdate db1 doc u hid1
  have hd2 : deltaRowsL (insertUpdate db1 doc u).1.rows doc
      = deltaRowsL db1.rows doc ++ [⟨db1.nextId, doc, u, false⟩] := by
    rw [insertUpdate_rows, deltaRowsL_append, if_pos ⟨rfl, rfl⟩]
  have hbound : ∀ g ∈ deltaRowsL db1.rows doc, g.id < db1.nextId := by
    intro g hg
    exact hid1 g (mem_deltaRowsL hg).1
  -- the checkpoint upsert
  have hbuf3 : getStateVectorBuffer
      (writeStateVector (insertUpdate db1 doc u).1 doc sv (insertUpdate db1 doc u).2) doc
      = some (encodeStateVectorBuffer sv db1.nextId) := by
    rw [insertUpdate_id]
    exact getStateVectorBuffer_put (insertUpdate db1 doc u).1 doc _
  have hid3 : IdsBelow
      (writeStateVector (insertUpdate db1 doc u).1 doc sv (insertUpdate db1 doc u).2) :=
    IdsBelow_putStateVector _ doc _ hid2
  have hnext3 : (insertUpdate db1 doc u).1.nextId
      ≤ (writeStateVector (insertUpdate db1 doc u).1 doc sv (insertUpdate db1 doc u).2).nextId :=
    writeStateVector_nextId_ge _ doc sv _
  -- delta rows after the checkpoint upsert: the appended full-state delta,
  -- preceded by rows whose ids are all below the new sequence
  have hG : ∃ G, deltaRowsL
        (writeStateVector (insertUpdate db1 doc u).1 doc sv (insertUpdate db1 doc u).2).rows doc
        = G ++ [⟨db1.nextId, doc, u, false⟩] ∧ ∀ g ∈ G, g.id < db1.nextId := by
    unfold writeStateVector putStateVector
    cases hsv : getStateVectorRow (insertUpdate db1 doc u).1 doc with
    | some svr =>
      obtain ⟨hmem, hdoc, hisv⟩ := getStateVectorRow_mem hsv
      have hsvr1 : svr ∈ db1.rows := by
        rw [insertUpdate_rows] at hmem
        rcases List.mem_append.mp hmem with h1 | h2
        · exact h1
        · exfalso
          rw [List.mem_singleton.mp h2] at hisv
          simp at hisv
      have hsvrid : svr.id < db1.nextId := hid1 svr hsvr1
      refine ⟨(deltaRowsL db1.rows doc).map
        (updateRowValue (encodeStateVectorBuffer sv (insertUpdate db1 doc u).2) svr.id), ?_, ?_⟩
      · simp only []
        rw [deltaRowsL_map_update, hd2, List.map_append]
        congr 1
        have : updateRowValue (encodeStateVectorBuffer sv (insertUpdate db1 doc u).2) svr.id
            (⟨db1.nextId, doc, u, false⟩ : Row) = (⟨db1.nextId, doc, u, false⟩ : Row) := by
          unfold updateRowValue
          rw [if_neg]
          intro hx
          simp only [] at hx
          omega
        simp [this]
      · intro g hg
        rw [List.mem_map] at hg
        obtain ⟨g0, hg0, rfl⟩ := hg
        rw [updateRowValue_id]
        exact hbound g0 hg0
    | none =>
      refine ⟨deltaRowsL db1.rows doc, ?_, hbound⟩
      simp only []
      rw [deltaRowsL_append]
      rw [if_neg (by simp)]
      rw [List.append_nil, hd2]
  obtain ⟨G, hG3, hGlt⟩ := hG
  refine ⟨?_, ?_, ?_, ?_⟩
  · -- delta rows after the range delete
    show deltaRowsL (clearUpdatesRange
        (writeStateVector (insertUpdate db1 doc u).1 doc sv (insertUpdate db1 doc u).2)
        doc 0 ((insertUpdate db1 doc u).2 : Int)).rows doc = _
    have hrw : (clearUpdatesRange
        (writeStateVector (insertUpdate db1 doc u).1 doc sv (insertUpdate db1 doc u).2)
        doc 0 ((insertUpdate db1 doc u).2 : Int)).rows
        = (writeStateVector (insertUpdate db1 doc u).1 doc sv (insertUpdate db1 doc u).2).rows.filter
            (fun r => ¬(r.docname = doc ∧ r.isSv = false ∧
              (0 : Int) ≤ (r.id : Int) ∧ (r.id : Int) < ((insertUpdate db1 doc u).2 : Int))) := rfl
    rw [hrw, deltaRowsL_clear, hG3, List.filter_append]
    have h1 : G.filter (fun r => ¬((0 : Int) ≤ (r.id : Int) ∧
        (r.id : Int) < ((insertUpdate db1 doc u).2 : Int))) = [] := by
      rw [List.filter_eq_nil_iff]
      intro a ha
      have hlt := hGlt a ha
      rw [insertUpdate_id]
      simp only [decide_eq_true_eq]
      omega
    have h2 : List.filter (fun r => ¬((0 : Int) ≤ (r.id : Int) ∧
        (r.id : Int) < ((insertUpdate db1 doc u).2 : Int)))
        [(⟨db1.nextId, doc, u, false⟩ : Row)] = [⟨db1.nextId, doc, u, false⟩] := by
      rw [List.filter_eq_self]
      intro a ha
      rw [List.mem_singleton.mp ha, insertUpdate_id]
      simp only [decide_eq_true_eq]
      omega
    rw [h1, h2, List.nil_append]
  · show getStateVectorBuffer (clearUpdatesRange _ doc 0 _) doc = _
    rw [getStateVectorBuffer_clear]
    exact hbuf3
  · show db1.nextId < (clearUpdatesRange _ doc 0 _).nextId
    have : (clearUpdatesRange
        (writeStateVector (insertUpdate db1 doc u).1 doc sv (insertUpdate db1 doc u).2)
        doc 0 ((insertUpdate db1 doc u).2 : Int)).nextId
        = (writeStateVector (insertUpdate db1 doc u).1 doc sv (insertUpdate db1 doc u).2).nextId := rfl
    rw [this]
    rw [insertUpdate_nextId] at hnext3
    omega
  · exact IdsBelow_clearUpdatesRange _ doc 0 _ hid3

theorem flushDocument_eq_flushTail {D : Type} (C : Crdt D) (db : DB) (doc : String)
    (u sv : Bytes) :
    flushDocument C db doc u sv
      = (flushTail (initForStore C db doc u) doc sv u, (initForStore C db doc u).nextId) := rfl

theorem flushDocument_facts {D : Type} (C : Crdt D) (db : DB) (doc : String)
    (u sv : Bytes) (hid : IdsBelow db) :
    (∀ r ∈ db.rows, r.id < (flushDocument C db doc u sv).2) ∧
    deltaRowsL (flushDocument C db doc u sv).1.rows doc
      = [⟨(flushDocument C db doc u sv).2, doc, u, false⟩] ∧
    readStateVector (flushDocument C db doc u sv).1 doc
      = some (some sv, ((flushDocument C db doc u sv).2 : Int)) ∧
    storedClock (flushDocument C db doc u sv).1 doc
      = some (flushDocument C db doc u sv).2 ∧
    db.nextId ≤ (flushDocument C db doc u sv).2 ∧
    (flushDocument C db doc u sv).2 < (flushDocument C db doc u sv).1.nextId ∧
    IdsBelow (flushDocument C db doc u sv).1 := by
  have hid1 : IdsBelow (initForStore C db doc u) := IdsBelow_initForStore C db doc u hid
  have hnext1 : db.nextId ≤ (initForStore C db doc u).nextId := initForStore_nextId_ge C db doc u
  obtain ⟨hdelta, hbuf, hlt, hid4⟩ := flushTail_facts (initForStore C db doc u) doc u sv hid1
  obtain ⟨hread, hclock⟩ := readStateVector_of_buffer hbuf
  rw [flushDocument_eq_flushTail]
  exact ⟨fun r hr => Nat.lt_of_lt_of_le (hid r hr) hnext1, hdelta, hread, hclock,
    hnext1, hlt, hid4⟩

theorem flushDocument_nextId_gt {D : Type} (C : Crdt D) (db : DB) (doc : String)
    (u sv : Bytes) : db.nextId < (flushDocument C db doc u sv).1.nextId := by
  rw [flushDocument_eq_flushTail]
  have h1 : db.nextId ≤ (initForStore C db doc u).nextId := initForStore_nextId_ge C db doc u
  have h2 : (insertUpdate (initForStore C db doc u) doc u).1.nextId
      ≤ (writeStateVector (insertUpdate (initForStore C db doc u) doc u).1 doc sv
          (insertUpdate (initForStore C db doc u) doc u).2).nextId :=
    writeStateVector_nextId_ge _ doc sv _
  have h3 : (flushTail (initForStore C db doc u) doc sv u).nextId
      = (writeStateVector (insertUpdate (initForStore C db doc u) doc u).1 doc sv
          (insertUpdate (initForStore C db doc u) doc u).2).nextId := rfl
  rw [h3]
  rw [insertUpdate_nextId] at h2
  omega

/-- C1: a successful compact (`flushDocument`) executes exactly these steps
in this order: it appends the full-state payload as a new delta (via
`storeUpdate`) obtaining a fresh sequence number — the new high watermark —
then upserts the checkpoint with that watermark, then deletes exactly the
delta rows with `0 ≤ sequence < watermark`; the just-appended full-state
delta (sequence = watermark) is never deleted, and the call returns the new
high watermark. -/
theorem flushDocument_compact_steps {D : Type} (C : Crdt D) (db : DB) (doc : String)
    (u sv : Bytes) (hid : IdsBelow db) :
    flushDocument C db doc u sv
      = (clearUpdatesRange
          (writeStateVector (storeUpdate C db doc u).1 doc sv (storeUpdate C db doc u).2)
          doc 0 ((storeUpdate C db doc u).2 : Int),
        (storeUpdate C db doc u).2) ∧
    (∀ r ∈ db.rows, r.id < (flushDocument C db doc u sv).2) ∧
    (⟨(flushDocument C db doc u sv).2, doc, u, false⟩ : Row)
      ∈ (flushDocument C db doc u sv).1.rows ∧
    readStateVector (flushDocument C db doc u sv).1 doc
      = some (some sv, ((flushDocument C db doc u sv).2 : Int)) ∧
    deltaRowsL (flushDocument C db doc u sv).1.rows doc
      = [⟨(flushDocument C db doc u sv).2, doc, u, false⟩] := by
  obtain ⟨hfresh, hdelta, hread, _, _, _, _⟩ := flushDocument_facts C db doc u sv hid
  refine ⟨rfl, hfresh, ?_, hread, hdelta⟩
  have hmem : (⟨(flushDocument C db doc u sv).2, doc, u, false⟩ : Row)
      ∈ deltaRowsL (flushDocument C db doc u sv).1.rows doc := by
    rw [hdelta]
    exact List.mem_singleton.mpr rfl
  exact (mem_deltaRowsL hmem).1

/-- C2: after a successful compact no live delta row of the document has a
sequence strictly below the new high watermark, and exactly the full-state
delta whose sequence equals the watermark remains; the stored checkpoint
clock equals that watermark. -/
theorem flushDocument_no_orphans {D : Type} (C : Crdt D) (db : DB) (doc : String)
    (u sv : Bytes) (hid : IdsBelow db) :
    (∀ r ∈ deltaRowsL (flushDocument C db doc u sv).1.rows doc,
      (flushDocument C db doc u sv).2 ≤ r.id) ∧
    deltaRowsL (flushDocument C db doc u sv).1.rows doc
      = [⟨(flushDocument C db doc u sv).2, doc, u, false⟩] ∧
    storedClock (flushDocument C db doc u sv).1 doc
      = some (flushDocument C db doc u sv).2 := by
  obtain ⟨_, hdelta, _, hclock, _, _, _⟩ := flushDocument_facts C db doc u sv hid
  refine ⟨?_, hdelta, hclock⟩
  intro r hr
  rw [hdelta] at hr
  rw [List.mem_singleton.mp hr]

/-! Keyset pagination: every live delta is delivered exactly once, in
ascending order, in pages of at most `BATCH_SIZE = 1000` rows. -/

theorem mem_id_le_getLast :
    ∀ (t : List Row) (h : t ≠ []) (a : Row),
      t.Pairwise rowLT → a ∈ t → a.id ≤ (t.getLast h).id := by
  intro t
  induction t with
  | nil => intro h; exact absurd rfl h
  | cons x s ih =>
    intro h a hp ha
    cases s with
    | nil =>
      have hax : a = x := by
        rcases List.mem_cons.mp ha with h1 | h2
        · exact h1
        · exact absurd h2 (by simp)
      rw [hax]
      exact Nat.le_refl _
    | cons y s2 =>
      have hgl : (x :: y :: s2).getLast h = (y :: s2).getLast (by simp) :=
        List.getLast_cons (by simp)
      rcases List.mem_cons.mp ha with h1 | h2
      · subst h1
        have hglmem : (y :: s2).getLast (by simp) ∈ y :: s2 := List.getLast_mem _
        have hlt := (List.pairwise_cons.mp hp).1 _ hglmem
        rw [hgl]
        exact Nat.le_of_lt hlt
      · rw [hgl]
        exact ih (by simp) a (List.pairwise_cons.mp hp).2 h2

theorem filter_lt_trans_eq (l : List Row) (a b : Int) (hab : a < b) :
    (l.filter fun r => b < (r.id : Int))
      = (l.filter fun r => a < (r.id : Int)).filter fun r => b < (r.id : Int) := by
  rw [List.filter_filter]
  apply List.filter_congr
  intro r _
  by_cases hq : b < (r.id : Int)
  · have hp : a < (r.id : Int) := lt_trans hab hq
    simp [hq, hp]
  · simp [hq]

theorem filter_drop_of_bounds (rest : List Row) (k : Nat) (B : Row)
    (hBt : ∀ a ∈ rest.take k, a.id ≤ B.id)
    (hBd : ∀ a ∈ rest.drop k, B.id < a.id) :
    (rest.filter fun r => (B.id : Int) < (r.id : Int)) = rest.drop k := by
  conv_lhs => rw [← List.take_append_drop k rest]
  rw [List.filter_append]
  have ht : ((rest.take k).filter fun r => (B.id : Int) < (r.id : Int)) = [] := by
    rw [List.filter_eq_nil_iff]
    intro a ha
    have := hBt a ha
    simp only [decide_eq_true_eq]
    omega
  have hd : ((rest.drop k).filter fun r => (B.id : Int) < (r.id : Int)) = rest.drop k := by
    rw [List.filter_eq_self]
    intro a ha
    have := hBd a ha
    simp only [decide_eq_true_eq]
    omega
  rw [ht, hd, List.nil_append]

theorem filter_gt_getLast_take (l : List Row) (hs : l.Pairwise rowLT) (lastId : Int)
    (k : Nat) (hne : (l.filter fun r => lastId < (r.id : Int)).take k ≠ []) :
    (l.filter fun r =>
        ((((l.filter fun r => lastId < (r.id : Int)).take k).getLast hne).id : Int)
          < (r.id : Int))
      = (l.filter fun r => lastId < (r.id : Int)).drop k := by
  have hmemB : ((l.filter fun r => lastId < (r.id : Int)).take k).getLast hne
      ∈ (l.filter fun r => lastId < (r.id : Int)).take k := List.getLast_mem hne
  have hmemRest : ((l.filter fun r => lastId < (r.id : Int)).take k).getLast hne
      ∈ l.filter fun r => lastId < (r.id : Int) := List.take_subset k _ hmemB
  have hlastB : lastId
      < ((((l.filter fun r => lastId < (r.id : Int)).take k).getLast hne).id : Int) := by
    have := List.of_mem_filter hmemRest
    simpa using this
  have hrest_pw : (l.filter fun r => lastId < (r.id : Int)).Pairwise rowLT :=
    hs.sublist (List.filter_sublist l)
  have hpw2 := hrest_pw
  rw [← List.take_append_drop k (l.filter fun r => lastId < (r.id : Int))] at hpw2
  obtain ⟨hpwt, _, hcross⟩ := List.pairwise_append.mp hpw2
  rw [filter_lt_trans_eq l lastId _ hlastB]
  exact filter_drop_of_bounds _ k _
    (fun a ha => mem_id_le_getLast _ hne a hpwt ha)
    (fun a ha => hcross _ hmemB a ha)

theorem keysetGo_flatten (l : List Row) (hs : l.Pairwise rowLT) :
    ∀ (fuel : Nat) (lastId : Int),
      (l.filter fun r => lastId < (r.id : Int)).length < fuel →
      (readAllUpdatesKeysetGo l lastId fuel).flatten
        = l.filter fun r => lastId < (r.id : Int) := by
  intro fuel
  induction fuel with
  | zero => intro lastId h; omega
  | succ n ih =>
    intro lastId hlen
    rw [readAllUpdatesKeysetGo]
    by_cases hb : (l.filter fun r => lastId < (r.id : Int)).take 1000 = []
    · rw [dif_pos hb]
      have hnil : (l.filter fun r => lastId < (r.id : Int)) = [] := by
        cases hf : l.filter fun r => lastId < (r.id : Int) with
        | nil => rfl
        | cons x t =>
          rw [hf] at hb
          exact absurd hb (by simp)
      rw [hnil]
      rfl
    · rw [dif_neg hb]
      by_cases hshort : ((l.filter fun r => lastId < (r.id : Int)).take 1000).length < 1000
      · rw [if_pos hshort]
        have hlt : (l.filter fun r => lastId < (r.id : Int)).length < 1000 := by
          rw [List.length_take] at hshort
          omega
        rw [List.flatten_cons, List.take_of_length_le (Nat.le_of_lt hlt)]
        simp
      · rw [if_neg hshort]
        have hrlen : 1000 ≤ (l.filter fun r => lastId < (r.id : Int)).length := by
          rw [List.length_take] at hshort
          omega
        have hq := filter_gt_getLast_take l hs lastId 1000 hb
        have hlen3 : (l.filter fun r =>
            ((((l.filter fun r => lastId < (r.id : Int)).take 1000).getLast hb).id : Int)
              < (r.id : Int)).length < n := by
          rw [hq, List.length_drop]
          omega
        rw [List.flatten_cons, ih _ hlen3, hq]
        exact List.take_append_drop 1000 _

theorem keysetGo_pages_le (l : List Row) :
    ∀ (fuel : Nat) (lastId : Int) (p : List Row),
      p ∈ readAllUpdatesKeysetGo l lastId fuel → p.length ≤ 1000 := by
  intro fuel
  induction fuel with
  | zero =>
    intro lastId p hp
    exact absurd hp (by simp [readAllUpdatesKeysetGo])
  | succ n ih =>
    intro lastId p hp
    rw [readAllUpdatesKeysetGo] at hp
    by_cases hb : (l.filter fun r => lastId < (r.id : Int)).take 1000 = []
    · rw [dif_pos hb] at hp
      exact absurd hp (by simp)
    · rw [dif_neg hb] at hp
      by_cases hshort : ((l.filter fun r => lastId < (r.id : Int)).take 1000).length < 1000
      · rw [if_pos hshort] at hp
        rw [List.mem_singleton.mp hp, List.length_take]
        omega
      · rw [if_neg hshort] at hp
        rcases List.mem_cons.mp hp with h1 | h2
        · rw [h1, List.length_take]
          omega
        · exact ih _ p h2

theorem selectUpdatesAsc_pairwise_lt (db : DB) (doc : String)
    (hnd : ((deltaRowsL db.rows doc).map fun r => r.id).Nodup) :
    (selectUpdatesAsc db doc).Pairwise rowLT := by
  have hsort : (selectUpdatesAsc db doc).Pairwise rowLE :=
    List.sorted_insertionSort rowLE (deltaRowsL db.rows doc)
  have hperm : (selectUpdatesAsc db doc).Perm (deltaRowsL db.rows doc) :=
    List.perm_insertionSort rowLE (deltaRowsL db.rows doc)
  have hnd2 : ((selectUpdatesAsc db doc).map fun r => r.id).Nodup :=
    (hperm.map fun r => r.id).nodup_iff.mpr hnd
  have hne : (selectUpdatesAsc db doc).Pairwise fun a b => a.id ≠ b.id :=
    List.pairwise_map.mp hnd2
  exact (hsort.and hne).imp fun h => Nat.lt_of_le_of_ne h.1 h.2

theorem readAllUpdatesKeyset_flatten (db : DB) (doc : String)
    (hnd : ((deltaRowsL db.rows doc).map fun r => r.id).Nodup) :
    (readAllUpdatesKeyset db doc).flatten = selectUpdatesAsc db doc := by
  unfold readAllUpdatesKeyset
  have hpl := selectUpdatesAsc_pairwise_lt db doc hnd
  have hlen : ((selectUpdatesAsc db doc).filter fun r => (-1 : Int) < (r.id : Int)).length
      < db.rows.length + 1 := by
    have h1 := List.length_filter_le
      (fun r => decide ((-1 : Int) < (r.id : Int))) (selectUpdatesAsc db doc)
    have h2 : (selectUpdatesAsc db doc).length = (deltaRowsL db.rows doc).length :=
      (List.perm_insertionSort rowLE _).length_eq
    have h3 : (deltaRowsL db.rows doc).length ≤ db.rows.length := by
      unfold deltaRowsL
      exact List.length_filter_le _ _
    omega
  rw [keysetGo_flatten _ hpl _ _ hlen]
  apply List.filter_eq_self.mpr
  intro a _
  simp only [decide_eq_true_eq]
  omega

/-- C3 (amended): the keyset-paginated `readAllUpdates` delivers every live
delta exactly once (its concatenation of pages is a permutation of the live
delta rows), in ascending sequence order, in pages of at most the page size
1000, fetching each page by sequence greater than the last seen sequence —
provided the sequence numbers are distinct, as the SERIAL primary key
guarantees; its returned count is the number of live deltas.  The
single-query `readAllUpdates` also delivers every record exactly once and
ordered, but as one callback holding the whole log. -/
theorem readAllUpdates_pagination (db : DB) (doc : String)
    (hnd : ((deltaRowsL db.rows doc).map fun r => r.id).Nodup) :
    (readAllUpdatesKeyset db doc).flatten = selectUpdatesAsc db doc ∧
    (selectUpdatesAsc db doc).Perm (deltaRowsL db.rows doc) ∧
    (selectUpdatesAsc db doc).Pairwise rowLE ∧
    (∀ p ∈ readAllUpdatesKeyset db doc, p.length ≤ 1000) ∧
    readAllUpdatesKeysetCount db doc = (deltaRowsL db.rows doc).length ∧
    readAllUpdatesSinglePages db doc = [selectUpdatesAsc db doc] ∧
    readAllUpdatesSingleCount db doc = (deltaRowsL db.rows doc).length := by
  have hflat := readAllUpdatesKeyset_flatten db doc hnd
  have hperm : (selectUpdatesAsc db doc).Perm (deltaRowsL db.rows doc) :=
    List.perm_insertionSort rowLE (deltaRowsL db.rows doc)
  refine ⟨hflat, hperm, List.sorted_insertionSort rowLE _, ?_, ?_, rfl, hperm.length_eq⟩
  · intro p hp
    exact keysetGo_pages_le (selectUpdatesAsc db doc) (db.rows.length + 1) (-1) p hp
  · unfold readAllUpdatesKeysetCount
    rw [← List.length_flatten, hflat]
    exact hperm.length_eq

theorem mkDb_delta_length (n : Nat) : (deltaRowsL (mkDb n).rows dName).length = n := by
  induction n with
  | zero => rfl
  | succ m ih =>
    show (deltaRowsL ((insertUpdate (mkDb m) dName []).1).rows dName).length = m + 1
    rw [insertUpdate_rows, deltaRowsL_append, if_pos ⟨rfl, rfl⟩, List.length_append, ih]
    rfl

/-- Counterexample to C3 as stated: the single-query `readAllUpdates`
revision (src/pg-adapter.ts) delivers the whole log in one callback — here
a single page of 1001 records, exceeding the 1000-row page size — so
`readAllUpdates` does not deliver bounded-size keyset pages. -/
theorem readAllUpdates_single_unbounded_page :
    (readAllUpdatesSinglePages (mkDb 1001) dName).map List.length = [1001] ∧
    (deltaRowsL (mkDb 1001).rows dName).length = 1001 := by
  have h := mkDb_delta_length 1001
  refine ⟨?_, h⟩
  show [(List.insertionSort rowLE (deltaRowsL (mkDb 1001).rows dName)).length] = [1001]
  rw [(List.perm_insertionSort rowLE (deltaRowsL (mkDb 1001).rows dName)).length_eq, h]

theorem readAllUpdates_pagination_witness :
    ((deltaRowsL (mkDb 3).rows dName).map fun r => r.id).Nodup ∧
    ((readAllUpdatesKeyset (mkDb 3) dName).flatten = selectUpdatesAsc (mkDb 3) dName ∧
     (selectUpdatesAsc (mkDb 3) dName).Perm (deltaRowsL (mkDb 3).rows dName) ∧
     (selectUpdatesAsc (mkDb 3) dName).Pairwise rowLE ∧
     (∀ p ∈ readAllUpdatesKeyset (mkDb 3) dName, p.length ≤ 1000) ∧
     readAllUpdatesKeysetCount (mkDb 3) dName = (deltaRowsL (mkDb 3).rows dName).length ∧
     readAllUpdatesSinglePages (mkDb 3) dName = [selectUpdatesAsc (mkDb 3) dName] ∧
     readAllUpdatesSingleCount (mkDb 3) dName = (deltaRowsL (mkDb 3).rows dName).length) :=
  ⟨by decide, readAllUpdates_pagination (mkDb 3) dName (by decide)⟩

theorem sum_map_length_le (L : List (List Row)) (h : ∀ p ∈ L, p.length ≤ 1000) :
    (L.map List.length).sum ≤ L.length * 1000 := by
  induction L with
  | nil => simp
  | cons x t ih =>
    simp only [List.map_cons, List.sum_cons, List.length_cons]
    have h1 := h x (List.mem_cons_self x t)
    have h2 := ih fun p hp => h p (List.mem_cons_of_mem x hp)
    omega

/-- C6 (amended): the counting loader (part_000) triggers compaction exactly
when the actually observed delta count exceeds `flushSize`.  The streaming
loader (part_001) triggers exactly when `batchCount * 1000` exceeds
`flushSize`; that estimate only bounds the actual count from above, so the
streaming loader still compacts whenever the actual count exceeds
`flushSize` but can also compact when it does not. -/
theorem getYDoc_flush_trigger {D : Type} (C : Crdt D) (db : DB) (doc : String)
    (fs : Nat) (hnd : ((deltaRowsL db.rows doc).map fun r => r.id).Nodup) :
    ((getYDocFromDb C db doc fs).1 = db ↔ (deltaRowsL db.rows doc).length ≤ fs) ∧
    ((getYDocFromDbStreaming C db doc fs).1 = db
      ↔ (readAllUpdatesKeyset db doc).length * 1000 ≤ fs) ∧
    (deltaRowsL db.rows doc).length ≤ (readAllUpdatesKeyset db doc).length * 1000 ∧
    (fs < (deltaRowsL db.rows doc).length → (getYDocFromDbStreaming C db doc fs).1 ≠ db) := by
  have hsingle : readAllUpdatesSingleCount db doc = (deltaRowsL db.rows doc).length :=
    (List.perm_insertionSort rowLE (deltaRowsL db.rows doc)).length_eq
  have hcount : (deltaRowsL db.rows doc).length
      ≤ (readAllUpdatesKeyset db doc).length * 1000 := by
    have hflat := readAllUpdatesKeyset_flatten db doc hnd
    have hsum : ((readAllUpdatesKeyset db doc).map List.length).sum
        = (deltaRowsL db.rows doc).length := by
      rw [← List.length_flatten, hflat]
      exact (List.perm_insertionSort rowLE (deltaRowsL db.rows doc)).length_eq
    have hle := sum_map_length_le (readAllUpdatesKeyset db doc)
      fun p hp => keysetGo_pages_le (selectUpdatesAsc db doc) (db.rows.length + 1) (-1) p hp
    omega
  have hiff1 : (getYDocFromDb C db doc fs).1 = db
      ↔ (deltaRowsL db.rows doc).length ≤ fs := by
    by_cases h : fs < readAllUpdatesSingleCount db doc
    · have hG : (getYDocFromDb C db doc fs).1
          = (flushDocument C db doc
              (C.encodeStateAsUpdate ((readAllUpdatesSinglePages db doc).flatten.foldl
                (fun d r => C.applyUpdate d r.value) C.newDoc))
              (C.encodeStateVector ((readAllUpdatesSinglePages db doc).flatten.foldl
                (fun d r => C.applyUpdate d r.value) C.newDoc))).1 := by
        unfold getYDocFromDb
        dsimp only
        rw [if_pos h]
      constructor
      · intro heq
        exfalso
        have hgt := flushDocument_nextId_gt C db doc
          (C.encodeStateAsUpdate ((readAllUpdatesSinglePages db doc).flatten.foldl
            (fun d r => C.applyUpdate d r.value) C.newDoc))
          (C.encodeStateVector ((readAllUpdatesSinglePages db doc).flatten.foldl
            (fun d r => C.applyUpdate d r.value) C.newDoc))
        rw [hG] at heq
        have hnid := congrArg DB.nextId heq
        simp only [] at hnid
        omega
      · intro hle
        exfalso
        omega
    · have hG : (getYDocFromDb C db doc fs).1 = db := by
        unfold getYDocFromDb
        dsimp only
        rw [if_neg h]
      rw [hG]
      constructor
      · intro _
        omega
      · intro _
        rfl
  have hiff2 : (getYDocFromDbStreaming C db doc fs).1 = db
      ↔ (readAllUpdatesKeyset db doc).length * 1000 ≤ fs := by
    by_cases h : fs < (readAllUpdatesKeyset db doc).length * 1000
    · have hG : (getYDocFromDbStreaming C db doc fs).1
          = (flushDocument C db doc
              (C.encodeStateAsUpdate ((readAllUpdatesKeyset db doc).flatten.foldl
                (fun d r => C.applyUpdate d r.value) C.newDoc))
              (C.encodeStateVector ((readAllUpdatesKeyset db doc).flatten.foldl
                (fun d r => C.applyUpdate d r.value) C.newDoc))).1 := by
        unfold getYDocFromDbStreaming
        dsimp only
        rw [if_pos h]
      constructor
      · intro heq
        exfalso
        have hgt := flushDocument_nextId_gt C db doc
          (C.encodeStateAsUpdate ((readAllUpdatesKeyset db doc).flatten.foldl
            (fun d r => C.applyUpdate d r.value) C.newDoc))
          (C.encodeStateVector ((readAllUpdatesKeyset db doc).flatten.foldl
            (fun d r => C.applyUpdate d r.value) C.newDoc))
        rw [hG] at heq
        have hnid := congrArg DB.nextId heq
        simp only [] at hnid
        omega
      · intro hle
        exfalso
        omega
    · have hG : (getYDocFromDbStreaming C db doc fs).1 = db := by
        unfold getYDocFromDbStreaming
        dsimp only
        rw [if_neg h]
      rw [hG]
      constructor
      · intro _
        omega
      · intro _
        rfl
  refine ⟨by rw [← hsingle] at hiff1 ⊢; rw [hsingle] at hiff1 ⊢; exact hiff1, hiff2, hcount, ?_⟩
  · intro hfs heq
    have := hiff2.mp heq
    omega

/-- Counterexample to C6 as stated: with one live delta and `flushSize =
999`, the streaming loader triggers compaction (`batchCount * 1000 = 1000 >
999`) although the observed count 1 does not exceed 999; afterwards the
document's log has been compacted to the single full-state delta. -/
theorem getYDoc_streaming_spurious_flush :
    (deltaRowsL (mkDb 1).rows dName).length = 1 ∧
    ¬(999 < (deltaRowsL (mkDb 1).rows dName).length) ∧
    (getYDocFromDbStreaming unitCrdt (mkDb 1) dName 999).1 ≠ mkDb 1 ∧
    deltaRowsL (getYDocFromDbStreaming unitCrdt (mkDb 1) dName 999).1.rows dName
      = [⟨2, dName, [], false⟩] := by
  refine ⟨by decide, by decide, by decide, by decide⟩

theorem getYDoc_flush_trigger_witness :
    ((deltaRowsL (mkDb 1).rows dName).map fun r => r.id).Nodup ∧
    (((getYDocFromDb unitCrdt (mkDb 1) dName 0).1 = mkDb 1
        ↔ (deltaRowsL (mkDb 1).rows dName).length ≤ 0) ∧
     ((getYDocFromDbStreaming unitCrdt (mkDb 1) dName 0).1 = mkDb 1
        ↔ (readAllUpdatesKeyset (mkDb 1) dName).length * 1000 ≤ 0) ∧
     (deltaRowsL (mkDb 1).rows dName).length
        ≤ (readAllUpdatesKeyset (mkDb 1) dName).length * 1000 ∧
     (0 < (deltaRowsL (mkDb 1).rows dName).length →
        (getYDocFromDbStreaming unitCrdt (mkDb 1) dName 0).1 ≠ mkDb 1)) :=
  ⟨by decide, getYDoc_flush_trigger unitCrdt (mkDb 1) dName 0 (by decide)⟩

theorem flushDocument_compact_steps_witness :
    IdsBelow (mkDb 1) ∧
    (flushDocument unitCrdt (mkDb 1) dName [1] [2]
        = (clearUpdatesRange
            (writeStateVector (storeUpdate unitCrdt (mkDb 1) dName [1]).1 dName [2]
              (storeUpdate unitCrdt (mkDb 1) dName [1]).2)
            dName 0 ((storeUpdate unitCrdt (mkDb 1) dName [1]).2 : Int),
          (storeUpdate unitCrdt (mkDb 1) dName [1]).2) ∧
     (∀ r ∈ (mkDb 1).rows, r.id < (flushDocument unitCrdt (mkDb 1) dName [1] [2]).2) ∧
     (⟨(flushDocument unitCrdt (mkDb 1) dName [1] [2]).2, dName, [1], false⟩ : Row)
        ∈ (flushDocument unitCrdt (mkDb 1) dName [1] [2]).1.rows ∧
     readStateVector (flushDocument unitCrdt (mkDb 1) dName [1] [2]).1 dName
        = some (some [2], ((flushDocument unitCrdt (mkDb 1) dName [1] [2]).2 : Int)) ∧
     deltaRowsL (flushDocument unitCrdt (mkDb 1) dName [1] [2]).1.rows dName
        = [⟨(flushDocument unitCrdt (mkDb 1) dName [1] [2]).2, dName, [1], false⟩]) :=
  ⟨by decide, flushDocument_compact_steps unitCrdt (mkDb 1) dName [1] [2] (by decide)⟩

theorem flushDocument_no_orphans_witness :
    IdsBelow (mkDb 2) ∧
    ((∀ r ∈ deltaRowsL (flushDocument unitCrdt (mkDb 2) dName [3] [4]).1.rows dName,
        (flushDocument unitCrdt (mkDb 2) dName [3] [4]).2 ≤ r.id) ∧
     deltaRowsL (flushDocument unitCrdt (mkDb 2) dName [3] [4]).1.rows dName
        = [⟨(flushDocument unitCrdt (mkDb 2) dName [3] [4]).2, dName, [3], false⟩] ∧
     storedClock (flushDocument unitCrdt (mkDb 2) dName [3] [4]).1 dName
        = some (flushDocument unitCrdt (mkDb 2) dName [3] [4]).2) :=
  ⟨by decide, flushDocument_no_orphans unitCrdt (mkDb 2) dName [3] [4] (by decide)⟩

/-! Watermark monotonicity along any delete-free run of service operations. -/

theorem storedClock_insertUpdate (db : DB) (doc d : String) (v : Bytes) :
    storedClock (insertUpdate db d v).1 doc = storedClock db doc := by
  unfold storedClock
  rw [getStateVectorBuffer_insertUpdate]

theorem deltaRowsL_insertUpdate_ne_nil (db : DB) (doc : String) (v : Bytes) :
    deltaRowsL (insertUpdate db doc v).1.rows doc ≠ [] := by
  rw [insertUpdate_rows, deltaRowsL_append, if_pos ⟨rfl, rfl⟩]
  simp

theorem storedClock_storeUpdate_skip {D : Type} (C : Crdt D) (db : DB) (doc : String)
    (u : Bytes) (h : ¬findLatestDocumentId db doc = -1) :
    storedClock (storeUpdate C db doc u).1 doc = storedClock db doc := by
  rw [storeUpdate_decomp, storedClock_insertUpdate]
  unfold initForStore
  rw [if_neg h]

theorem storedClock_storeUpdate_init {D : Type} (C : Crdt D) (db : DB) (doc : String)
    (u : Bytes) (h : findLatestDocumentId db doc = -1) :
    storedClock (storeUpdate C db doc u).1 doc = some 0 := by
  rw [storeUpdate_decomp, storedClock_insertUpdate]
  unfold initForStore
  rw [if_pos h]
  exact storedClock_write db doc _ 0

theorem clockLE_refl (o : Option Nat) : clockLE o o := by
  cases o with
  | none => exact trivial
  | some a => exact Nat.le_refl a

theorem storeUpdate_step {D : Type} (C : Crdt D) (doc : String) (db : DB) (u : Bytes)
    (hInv : WatermarkInv doc db) :
    WatermarkInv doc (storeUpdate C db doc u).1 ∧
    clockLE (storedClock db doc) (storedClock (storeUpdate C db doc u).1 doc) := by
  obtain ⟨hid, hpos, hclk⟩ := hInv
  by_cases h : findLatestDocumentId db doc = -1
  · have hnil : deltaRowsL db.rows doc = [] := (findLatestDocumentId_neg_iff db doc).mp h
    have hsc := storedClock_storeUpdate_init C db doc u h
    constructor
    · refine ⟨?_, ?_, ?_⟩
      · rw [storeUpdate_decomp]
        exact IdsBelow_insertUpdate _ doc u (IdsBelow_initForStore C db doc u hid)
      · rw [storeUpdate_decomp, insertUpdate_nextId]
        omega
      · intro w hw
        rw [hsc] at hw
        have hw0 : w = 0 := (Option.some.inj hw).symm
        subst hw0
        refine ⟨?_, fun h0 => absurd h0 (by omega)⟩
        rw [storeUpdate_decomp, insertUpdate_nextId]
        omega
    · cases hold : storedClock db doc with
      | none => exact trivial
      | some w =>
        have hfacts := hclk w hold
        have hw0 : w = 0 := by
          by_contra hne
          exact (hfacts.2 (by omega)) hnil
        rw [hsc, hw0]
        exact Nat.le_refl 0
  · have hsc := storedClock_storeUpdate_skip C db doc u h
    have hnge := initForStore_nextId_ge C db doc u
    constructor
    · refine ⟨?_, ?_, ?_⟩
      · rw [storeUpdate_decomp]
        exact IdsBelow_insertUpdate _ doc u (IdsBelow_initForStore C db doc u hid)
      · rw [storeUpdate_decomp, insertUpdate_nextId]
        omega
      · intro w hw
        rw [hsc] at hw
        obtain ⟨hwlt, _⟩ := hclk w hw
        constructor
        · rw [storeUpdate_decomp, insertUpdate_nextId]
          omega
        · intro _
          rw [storeUpdate_decomp]
          exact deltaRowsL_insertUpdate_ne_nil _ doc u
    · rw [hsc]
      exact clockLE_refl _

theorem flush_step {D : Type} (C : Crdt D) (doc : String) (db : DB) (u sv : Bytes)
    (hInv : WatermarkInv doc db) :
    WatermarkInv doc (flushDocument C db doc u sv).1 ∧
    clockLE (storedClock db doc) (storedClock (flushDocument C db doc u sv).1 doc) := by
  obtain ⟨hid, hpos, hclk⟩ := hInv
  obtain ⟨hfresh, hdelta, hread, hclock, hge, hlt, hid4⟩ := flushDocument_facts C db doc u sv hid
  constructor
  · refine ⟨hid4, by omega, ?_⟩
    intro w hw
    rw [hclock] at hw
    have hww : w = (flushDocument C db doc u sv).2 := (Option.some.inj hw).symm
    subst hww
    refine ⟨hlt, fun _ => ?_⟩
    rw [hdelta]
    simp
  · cases hold : storedClock db doc with
    | none => exact trivial
    | some w =>
      obtain ⟨hwlt, _⟩ := hclk w hold
      rw [hclock]
      show w ≤ (flushDocument C db doc u sv).2
      omega

theorem stepOp_step {D : Type} (C : Crdt D) (doc : String) (db : DB) (op : Op)
    (hInv : WatermarkInv doc db) :
    WatermarkInv doc (stepOp C doc db op) ∧
    clockLE (storedClock db doc) (storedClock (stepOp C doc db op) doc) := by
  cases op with
  | store u => exact storeUpdate_step C doc db u hInv
  | flush u sv => exact flush_step C doc db u sv hInv
  | load fs =>
    have hstep : stepOp C doc db (Op.load fs) = (getYDocFromDb C db doc fs).1 := rfl
    rw [hstep]
    by_cases h : fs < readAllUpdatesSingleCount db doc
    · have hG : (getYDocFromDb C db doc fs).1
          = (flushDocument C db doc
              (C.encodeStateAsUpdate ((readAllUpdatesSinglePages db doc).flatten.foldl
                (fun d r => C.applyUpdate d r.value) C.newDoc))
              (C.encodeStateVector ((readAllUpdatesSinglePages db doc).flatten.foldl
                (fun d r => C.applyUpdate d r.value) C.newDoc))).1 := by
        unfold getYDocFromDb
        dsimp only
        rw [if_pos h]
      rw [hG]
      exact flush_step C doc db _ _ ⟨hInv.1, hInv.2.1, hInv.2.2⟩
    · have hG : (getYDocFromDb C db doc fs).1 = db := by
        unfold getYDocFromDb
        dsimp only
        rw [if_neg h]
      rw [hG]
      exact ⟨⟨hInv.1, hInv.2.1, hInv.2.2⟩, clockLE_refl _⟩
  | loadStreaming fs =>
    have hstep : stepOp C doc db (Op.loadStreaming fs) = (getYDocFromDbStreaming C db doc fs).1 := rfl
    rw [hstep]
    by_cases h : fs < (readAllUpdatesKeyset db doc).length * 1000
    · have hG : (getYDocFromDbStreaming C db doc fs).1
          = (flushDocument C db doc
              (C.encodeStateAsUpdate ((readAllUpdatesKeyset db doc).flatten.foldl
                (fun d r => C.applyUpdate d r.value) C.newDoc))
              (C.encodeStateVector ((readAllUpdatesKeyset db doc).flatten.foldl
                (fun d r => C.applyUpdate d r.value) C.newDoc))).1 := by
        unfold getYDocFromDbStreaming
        dsimp only
        rw [if_pos h]
      rw [hG]
      exact flush_step C doc db _ _ ⟨hInv.1, hInv.2.1, hInv.2.2⟩
    · have hG : (getYDocFromDbStreaming C db doc fs).1 = db := by
        unfold getYDocFromDbStreaming
        dsimp only
        rw [if_neg h]
      rw [hG]
      exact ⟨⟨hInv.1, hInv.2.1, hInv.2.2⟩, clockLE_refl _⟩

theorem WatermarkInv_empty (doc : String) : WatermarkInv doc DB.empty := by
  refine ⟨?_, ?_, ?_⟩
  · intro r hr
    exact absurd hr (by simp [DB.empty])
  · simp [DB.empty]
  · intro w hw
    exfalso
    unfold storedClock getStateVectorBuffer getStateVectorRow at hw
    simp [DB.empty, svRowsL] at hw

theorem WatermarkInv_runOps {D : Type} (C : Crdt D) (doc : String) (ops : List Op) :
    WatermarkInv doc (runOps C doc ops) := by
  unfold runOps
  have hgen : ∀ (l : List Op) (db : DB), WatermarkInv doc db → WatermarkInv doc (l.foldl (stepOp C doc) db) := by
    intro l
    induction l with
    | nil => intro db h; exact h
    | cons x t ih =>
      intro db h
      exact ih _ (stepOp_step C doc db x h).1
  exact hgen ops DB.empty (WatermarkInv_empty doc)

/-- C4: across every delete-free sequence of service operations on one
document (record updates, compactions, loads of either revision — each load
possibly triggering a compaction), the stored checkpoint's high watermark
never decreases: extending any run from the empty table by one more
operation yields a stored clock at least the previous one. -/
theorem high_watermark_monotone {D : Type} (C : Crdt D) (doc : String)
    (ops : List Op) (op : Op) :
    clockLE (storedClock (runOps C doc ops) doc)
      (storedClock (runOps C doc (ops ++ [op])) doc) := by
  have h1 : runOps C doc (ops ++ [op]) = stepOp C doc (runOps C doc ops) op := by
    unfold runOps
    rw [List.foldl_append]
    rfl
  rw [h1]
  exact (stepOp_step C doc (runOps C doc ops) op (WatermarkInv_runOps C doc ops)).2
